import Mathlib

/-!
# Verification of the BBS+ signature library core

A shallow embedding of the cryptographic core of the BBSplus-signatures Go
library, in the generic-group (discrete-log) model:

* The scalar field is `ZMod q`, where the parameter `q` abstracts `Order`,
  the BLS12-381 subgroup order `r` (a 255-bit prime).  Every definition is
  parametric in `q`; theorems that need the field structure assume
  `Fact q.Prime`, and concrete evaluations instantiate `q` with a small prime.
* Group elements of G1, G2 and GT are represented by their exponents
  (discrete logarithms) with respect to fixed generators, so G1 = G2 = GT =
  `ZMod q`, point addition is `+`, scalar multiplication is `*`, the point at
  infinity is `0`, and the bilinear pairing is `fun a b => a * b` (the target
  group written additively in the exponent; `GT.IsOne` becomes `= 0`).  All
  the operations the library performs on curve points are group operations,
  so this model is faithful to the group-theoretic behaviour of the code.
* SHA-256-based hash computations (`CalculateDomain`, `ComputeProofChallenge`)
  hash byte strings that include curve-point encodings; both the hash and the
  per-index generator derivation are abstracted as explicit function
  parameters (`Hs`, `genHash`).  Byte strings are `List ℕ` with entries < 256.
* The randomness sources (`crypto/rand.Reader` draws made through
  `RandomScalar` / `ConstantTimeRandom`) are modelled as an explicit stream
  `ℕ → ZMod q` giving the successive scalars drawn; the library's rejection
  sampling never fails on the system reader, so no error case is modelled.
* `gnark-crypto`'s point serialization: `G1Affine.Marshal` / `G2Affine.Marshal`
  return the canonical *uncompressed* encoding (`RawBytes`): 96 bytes for G1
  and 192 bytes for G2, with the three most-significant bits of the first byte
  used as a metadata mask that is `0b000` for the uncompressed form
  (BLS12-381 base-field elements are < 2^381, so those bits are free).
  `Unmarshal` (= `SetBytes`) reads that mask and demands the corresponding
  length.  The models below reproduce exactly this layout with the point
  coordinates abstracted by the exponent of the point.
-/

namespace BBS

/-! ## Byte-string helpers -/

/-- Big-endian byte encoding of `v` in exactly `n` bytes (value taken mod `2^(8n)`). -/
def beBytes : ℕ → ℕ → List ℕ
  | 0, _ => []
  | n + 1, v => beBytes n (v / 256) ++ [v % 256]

/-- Big-endian value of a byte string. -/
def beVal (l : List ℕ) : ℕ := l.foldl (fun a b => a * 256 + b) 0

/-- Fuelled byte-length computation (structurally recursive so that it reduces
in the kernel): number of base-256 digits of `v`, with `byteLenAux fuel v = 0`
when the fuel runs out. -/
def byteLenAux : ℕ → ℕ → ℕ
  | _, 0 => 0
  | 0, _ + 1 => 0
  | fuel + 1, v + 1 => byteLenAux fuel ((v + 1) / 256) + 1

/-- Number of bytes in the minimal big-endian encoding of `v` (0 for `v = 0`). -/
def byteLen (v : ℕ) : ℕ := byteLenAux v v

/-- Model of Go `math/big.Int.Bytes()`: minimal big-endian encoding, empty for 0. -/
def minBytes (v : ℕ) : List ℕ := beBytes (byteLen v) v

/-- Model of Go's `byte(x)` conversion: truncation to the low 8 bits. -/
def goByte (v : ℕ) : ℕ := v % 256

/-- The four bytes `byte(v>>24), byte(v>>16), byte(v>>8), byte(v)` that the
library writes for 32-bit big-endian integers (message counts, indices,
length fields). -/
def u32beGo (v : ℕ) : List ℕ :=
  [goByte (v >>> 24), goByte (v >>> 16), goByte (v >>> 8), goByte v]

/-- Standard big-endian 32-bit encoding (the specification's `u32_be`). -/
def u32be (v : ℕ) : List ℕ := beBytes 4 v

/-- Model of Go's built-in `copy(dst, src)` on slices: the first
`min (len dst) (len src)` elements of `dst` are replaced by those of `src`,
and `copy` returns `dst` unchanged beyond that; in particular copying into a
zero-length slice copies nothing. -/
def goCopy (dst src : List ℕ) : List ℕ := src.take dst.length ++ dst.drop src.length

/-- Insert into a `≤`-sorted list of naturals, keeping it sorted. -/
def insertSorted (x : ℕ) : List ℕ → List ℕ
  | [] => [x]
  | y :: ys => if x ≤ y then x :: y :: ys else y :: insertSorted x ys

/-- Model of Go `sort.Ints`: ascending insertion sort. -/
def sortInts (l : List ℕ) : List ℕ := l.foldr insertSorted []

/-! ## Association-list model of Go maps

Go `map[int]*big.Int` values are modelled as association lists
`List (ℕ × ZMod q)`.  The *list order* models Go's (unspecified, randomized)
map iteration order: two lists with the same key/value pairs in different
orders model the same Go map observed under two different iterations. -/

/-- First value bound to `k`, or `d` when `k` is absent (Go map read zero value). -/
def lookupD {α : Type} (m : List (ℕ × α)) (k : ℕ) (d : α) : α :=
  match m.find? (fun kv => kv.1 = k) with
  | some kv => kv.2
  | none => d

/-- Whether the map binds `k`. -/
def containsKey {α : Type} (m : List (ℕ × α)) (k : ℕ) : Bool :=
  m.any (fun kv => kv.1 = k)

/-- Go map insertion `m[k] = v`: replace the binding if present, else append. -/
def mapInsert {α : Type} (m : List (ℕ × α)) (k : ℕ) (v : α) : List (ℕ × α) :=
  if containsKey m k then m.map (fun kv => if kv.1 = k then (k, v) else kv)
  else m ++ [(k, v)]

variable {q : ℕ}

/-! ## Point-encoding models (gnark-crypto `Marshal` / `Unmarshal`) -/

/-- Model of `G1Affine.Marshal`: the canonical **uncompressed** 96-byte
encoding (48-byte X then 48-byte Y, metadata mask `0b000` in the top bits of
the first byte).  Coordinates are abstracted by the point's exponent: both
halves carry `p.val`, which keeps the encoding injective, 96 bytes long and
with a zero mask, the three properties the library's byte handling depends
on. -/
def g1Marshal (p : ZMod q) : List ℕ := beBytes 48 p.val ++ beBytes 48 p.val

/-- Model of `G2Affine.Marshal`: the canonical uncompressed 192-byte encoding. -/
def g2Marshal (p : ZMod q) : List ℕ := beBytes 96 p.val ++ beBytes 96 p.val

/-- The canonical **compressed** 48-byte G1 encoding (gnark `Bytes()`):
X with the compression mask `0b1xx` set in the top bits of the first byte.
Used only to state the specification's "canonical compressed form" reading. -/
def g1Compressed (p : ZMod q) : List ℕ :=
  (128 + (beBytes 48 p.val).headD 0) :: (beBytes 48 p.val).tail

/-- The canonical compressed 96-byte G2 encoding (gnark `Bytes()`). -/
def g2Compressed (p : ZMod q) : List ℕ :=
  (128 + (beBytes 96 p.val).headD 0) :: (beBytes 96 p.val).tail

/-- Model of `G1Affine.Unmarshal` (= `SetBytes`): reject buffers shorter than
48 bytes; read the metadata mask from the top three bits of the first byte;
for the uncompressed mask `0b000` demand 96 bytes and decode, checking the
value is canonical and the two coordinate halves are consistent (the model's
analogue of the on-curve check).  Compressed masks are not produced by
`Marshal` and are modelled as a decoding error. -/
def g1Unmarshal (data : List ℕ) : Except Unit (ZMod q) :=
  if data.length < 48 then .error () else
  if data.headD 0 / 32 = 0 then
    if data.length < 96 then .error ()
    else
      let x := beVal (data.take 48)
      if x < q ∧ data.drop 48 = beBytes 48 x ++ data.drop 96 then .ok (x : ZMod q)
      else .error ()
  else .error ()

/-! ## Errors -/

/-- The error kinds surfaced by the library functions under verification.
`invalidSignature` is returned both for a challenge mismatch and for a failed
pairing check, exactly as `ErrInvalidSignature` is in the source. -/
inductive Err
  | invalidMessageCount
  | invalidIndex
  | invalidSignature
  | pairingFailed
  | mismatchedLengths
  | msmFailed
  | invalidSignatureData
  | invalidProofData
  | challengeFailed (idx : ℕ)
  | mismatchedArrayLengths
  | headersLengthMismatch
  deriving DecidableEq, Repr

/-- Decidable equality of `Except` results, for concrete evaluations. -/
instance {ε α : Type} [DecidableEq ε] [DecidableEq α] : DecidableEq (Except ε α) := fun a b =>
  match a, b with
  | .ok x, .ok y =>
    if h : x = y then isTrue (by rw [h]) else isFalse (fun hc => h (Except.ok.inj hc))
  | .error x, .error y =>
    if h : x = y then isTrue (by rw [h]) else isFalse (fun hc => h (Except.error.inj hc))
  | .ok _, .error _ => isFalse (fun hc => Except.noConfusion hc)
  | .error _, .ok _ => isFalse (fun hc => Except.noConfusion hc)

/-! ## Core data types (`part_018` type declarations) -/

/-- Source `PrivateKey`: the secret scalar `X`. -/
structure PrivateKey (q : ℕ) where
  X : ZMod q
  deriving DecidableEq

/-- Source `PublicKey`: `W = [x]P2`, the G2 and G1 generators, the vector
`H = [Q1, Q2, H_1, …, H_L]` of derived G1 generators, and the message count.
Group elements are carried as exponents. -/
structure PublicKey (q : ℕ) where
  W : ZMod q
  G2 : ZMod q
  G1 : ZMod q
  H : List (ZMod q)
  MessageCount : ℕ
  deriving DecidableEq

/-- Source `KeyPair`. -/
structure KeyPair (q : ℕ) where
  PrivateKey : PrivateKey q
  PublicKey : PublicKey q
  deriving DecidableEq

/-- Source `Signature` triple `(A, e, s)`. -/
structure Signature (q : ℕ) where
  A : ZMod q
  E : ZMod q
  S : ZMod q
  deriving DecidableEq

/-- Source `ProofOfKnowledge`: commitments `A', Ā, D`, challenge `C`, responses
`EHat, SHat` and the hidden-message responses `MHat` (a Go map, modelled as
an association list whose order is the map's iteration order). -/
structure ProofOfKnowledge (q : ℕ) where
  APrime : ZMod q
  ABar : ZMod q
  D : ZMod q
  C : ZMod q
  EHat : ZMod q
  SHat : ZMod q
  MHat : List (ℕ × ZMod q)
  deriving DecidableEq

/-! ## Jacobian points and multi-scalar multiplication (`utils.go`) -/

/-- A G1 point in Jacobian coordinates: the point (as an exponent) together
with its `Z` coordinate, which gnark-crypto keeps equal to 0 exactly at the
point at infinity (finite points have `Z ≠ 0`; the model normalizes their `Z`
to 1, since only zero-vs-nonzero is observable through the library's use).
The `X` and `Y` coordinates are not tracked: the infinity convention depends
only on `Z`. -/
structure G1Jac (q : ℕ) where
  pt : ZMod q
  Z : ℕ
  deriving DecidableEq

/-- Model of `G1Jac.FromAffine`: the identity maps to `Z = 0`, finite points to `Z ≠ 0`. -/
def g1JacOfAffine (p : ZMod q) : G1Jac q :=
  { pt := p, Z := if p = 0 then 0 else 1 }

/-- Model of `G1Jac.AddAssign`. -/
def g1JacAdd (a b : G1Jac q) : G1Jac q :=
  { pt := a.pt + b.pt, Z := if a.pt + b.pt = 0 then 0 else 1 }

/-- Model of `G1Jac.ScalarMultiplication`. -/
def g1JacScalarMul (s : ZMod q) (a : G1Jac q) : G1Jac q :=
  { pt := s * a.pt, Z := if s * a.pt = 0 then 0 else 1 }

/-- Model of `g1JacToAffine` (`G1Affine.FromJacobian`). -/
def g1JacToAffine (a : G1Jac q) : ZMod q := a.pt

/-- The accumulator `MultiScalarMulG1` starts from: the source sets
`X.SetOne(); Y.SetOne(); Z.SetZero()`, i.e. the gnark Jacobian representation
of the point at infinity, with `Z = 0`. -/
def msmInit : G1Jac q := { pt := 0, Z := 0 }

/-- One iteration of the accumulation loop body of `MultiScalarMulG1`:
skip the term when the scalar is zero (`Sign() == 0`: scalars here are
canonical non-negative residues) or the point is the identity
(`IsInfinity`), otherwise add `scalar * point` to the accumulator. -/
def msmStep (points scalars : List (ZMod q)) (acc : G1Jac q) (j : ℕ) : G1Jac q :=
  if scalars.getD j 0 = 0 ∨ points.getD j 0 = 0 then acc
  else g1JacAdd acc (g1JacScalarMul (scalars.getD j 0) (g1JacOfAffine (points.getD j 0)))

/-- Embedding of `MultiScalarMulG1` (`utils.go`): after the length check, accumulate in
two phases exactly as the source does — full batches of `batchSize = 8`
(`for i := 0; i <= len(points)-batchSize; i += batchSize` with an inner loop
over the batch) and then the remaining indices
(`for i := (len(points)/batchSize)*batchSize; i < len(points); i++`). -/
def MultiScalarMulG1 (points scalars : List (ZMod q)) : Except Err (G1Jac q) :=
  if points.length ≠ scalars.length then .error .mismatchedLengths
  else
    let n := points.length
    let afterBatches :=
      ((List.range n).filter (fun i => i % 8 = 0 && i + 8 ≤ n)).foldl
        (fun acc i => (List.range 8).foldl (fun a j => msmStep points scalars a (i + j)) acc)
        msmInit
    .ok ((List.range' ((n / 8) * 8) (n - (n / 8) * 8)).foldl (msmStep points scalars) afterBatches)

/-- The specification's multi-scalar multiplication: `Σ scalars[i]·points[i]`
over the paired inputs, the identity for empty input. -/
def msmSpecSum (points scalars : List (ZMod q)) : ZMod q :=
  ((points.zip scalars).map (fun ps => ps.2 * ps.1)).sum

/-! ## Pairing product (`bls12381.Pair`) -/

/-- Model of the n-fold product pairing: in the exponent model
`e(P, Q) = dlog P * dlog Q`, and the product over all pairs is the sum of
those exponents; the result "is one" exactly when the exponent sum is zero.
`Pair` rejects mismatched input lengths. -/
def pairProduct (g1s g2s : List (ZMod q)) : Except Err (ZMod q) :=
  if g1s.length ≠ g2s.length then .error .pairingFailed
  else .ok (((g1s.zip g2s).map (fun ab => ab.1 * ab.2)).sum)

/-! ## Domain computation (`CalculateDomain`, `utils.go`) -/

/-- The byte string `CalculateDomain` hashes: the 32-bit big-endian message
count, then `H[0] = Q1`, `H[1] = Q2`, the remaining `H[i]` (the per-message
generators), then `W`, the G1 generator, the G2 generator, and finally the
header when it is non-nil (`header : Option _`, `none` modelling a nil Go
slice). -/
def domainBytes (publicKey : PublicKey q) (header : Option (List ℕ)) : List ℕ :=
  u32beGo publicKey.MessageCount
    ++ g1Marshal (publicKey.H.getD 0 0)
    ++ g1Marshal (publicKey.H.getD 1 0)
    ++ (publicKey.H.drop 2).flatMap g1Marshal
    ++ g2Marshal publicKey.W
    ++ g1Marshal publicKey.G1
    ++ g2Marshal publicKey.G2
    ++ header.getD []

/-- Embedding of `CalculateDomain`: hash the buffer and reduce mod `Order`.  The SHA-256
hash composed with the reduction is the abstract parameter `Hs`. -/
def CalculateDomain (Hs : List ℕ → ZMod q) (publicKey : PublicKey q)
    (header : Option (List ℕ)) : ZMod q :=
  Hs (domainBytes publicKey header)

/-! ## Fiat–Shamir challenge (`ComputeProofChallenge`, `utils.go`) -/

/-- The byte string `ComputeProofChallenge` hashes.  The source builds
`sortedIndices := make([]int, 0, len(disclosedIndices))` — a zero-length
slice — and then `copy(sortedIndices, disclosedIndices)`, which copies
`min(len(dst), len(src)) = 0` elements, so `sortedIndices` stays empty and
the loop that should append the disclosed indices and messages never runs.
The model renders this faithfully through `goCopy` applied to the empty
slice. -/
def challengeBytes (APrime ABar D : ZMod q) (disclosedIndices : List ℕ)
    (disclosedMessages : List (ℕ × ZMod q)) : List ℕ :=
  let buff := g1Marshal APrime ++ g1Marshal ABar ++ g1Marshal D
  let sortedIndices := sortInts (goCopy [] disclosedIndices)
  buff ++ sortedIndices.flatMap (fun idx =>
    let msgBytes := minBytes (lookupD disclosedMessages idx 0).val
    u32beGo idx ++ u32beGo msgBytes.length ++ msgBytes)

/-- Embedding of `ComputeProofChallenge`: hash of `challengeBytes`, reduced mod `Order`
(the SHA-256 hash plus reduction abstracted as `Hs`). -/
def ComputeProofChallenge (Hs : List ℕ → ZMod q) (APrime ABar D : ZMod q)
    (disclosedIndices : List ℕ) (disclosedMessages : List (ℕ × ZMod q)) : ZMod q :=
  Hs (challengeBytes APrime ABar D disclosedIndices disclosedMessages)

/-! ## Generators and key generation (`utils.go`, `part_022`) -/

/-- Embedding of `GenerateGenerators count`: the source derives generator `i`
deterministically from the seed string `"BBS_BLS12381_GENERATOR_%d"` via
SHA-256 and a scalar multiplication of a fixed base point, abstracted here
as `genHash i`.  This exponent model **idealizes** the generators as
elements of the r-order subgroup.  In the source the fixed base point is the
affine point `(1, 1)` (`g1.X.SetOne(); g1.Y.SetOne()`), which is *not on
BLS12-381*: see `generatorBase`, `onCurveG1`, `onCuspCurve` and the theorem
`c2_generators_off_curve` for the coordinate-level model of that defect.
Statements quantifying over `genHash` therefore describe the program with an
in-subgroup derivation substituted for the broken one; the defect itself is
settled separately (claim C2). -/
def GenerateGenerators (genHash : ℕ → ZMod q) (count : ℕ) : List (ZMod q) :=
  (List.range count).map genHash

/-! ## Coordinate-level model of the generator derivation defect

`GenerateGenerators` (`bbs/utils.go:230-272`) builds each generator by
scalar-multiplying a base point it constructs as `g1.X.SetOne();
g1.Y.SetOne()` — the affine point `(1, 1)` over the BLS12-381 base field.
gnark-crypto's `FromAffine`, `ScalarMultiplication`, `AddAssign` and `Pair`
perform no on-curve or subgroup validation, and the a = 0 short-Weierstrass
chord–tangent formulas never reference the curve constant, so the scalar
multiples stay on whatever cubic `y² = x³ + c` the base point satisfies.
For `(1, 1)` that is the singular cubic `y² = x³`, not the BLS12-381
equation `y² = x³ + 4`. -/

/-- The BLS12-381 base-field prime `p` (381 bits), over which G1 point
coordinates live. -/
def pBLS : ℕ :=
  0x1a0111ea397fe69a4b1ba7b6434bacd764774b84f38512bf6730d2a0f6b0f6241eabfffeb153ffffb9feffffffffaaab

/-- The fixed base point `GenerateGenerators` scalar-multiplies: the source
sets `g1.X.SetOne(); g1.Y.SetOne()` before
`baseJac.ScalarMultiplication(&baseJac, scalar)`, i.e. the affine point
`(1, 1)`. -/
def generatorBase : ZMod pBLS × ZMod pBLS := (1, 1)

/-- The affine BLS12-381 G1 curve equation `y² = x³ + 4`. -/
def onCurveG1 (P : ZMod pBLS × ZMod pBLS) : Prop := P.2 ^ 2 = P.1 ^ 3 + 4

/-- The singular cubic `y² = x³` that the base point `(1, 1)` satisfies, and
within which the curve-constant-free a = 0 formulas keep its scalar
multiples. -/
def onCuspCurve (P : ZMod pBLS × ZMod pBLS) : Prop := P.2 ^ 2 = P.1 ^ 3

/-- The randomness source handed to `GenerateKeyPair`: either a
`*bytes.Reader` (carrying its byte contents), which the source treats as
test mode, or the system randomness source abstracted as a stream of the
scalars that `RandomScalar` would return. -/
inductive Rng (q : ℕ)
  | bytesReader (contents : List ℕ)
  | system (draws : ℕ → ZMod q)

/-- Embedding of `GenerateKeyPair` (`part_022`): if the supplied `rng` is a
`*bytes.Reader`, the private key is the **fixed constant 12345** ("Use a
fixed key for tests"); otherwise it is a random scalar drawn from the
source. `W = [x]P2` where `P2`, the standard G2 generator, has exponent 1;
the standard G1 generator likewise has exponent 1; `H` holds the
`messageCount + 2` derived generators. -/
def GenerateKeyPair (genHash : ℕ → ZMod q) (messageCount : ℕ) (rng : Rng q) : KeyPair q :=
  let x : ZMod q :=
    match rng with
    | .bytesReader _ => (12345 : ZMod q)
    | .system draws => draws 0
  { PrivateKey := { X := x },
    PublicKey :=
      { W := x * 1, G2 := 1, G1 := 1,
        H := GenerateGenerators genHash (messageCount + 2),
        MessageCount := messageCount } }

/-! ## Signing and signature verification (`part_022`) -/

/-- Embedding of `ConstantTimeModInverse` (`utils.go`): `a^(Order-2) mod Order` by
Fermat's little theorem. -/
def ConstantTimeModInverse (a : ZMod q) : ZMod q := a ^ (q - 2)

/-- Embedding of `SignWithPooling` (`part_022`): after the message-count check, compute
`B = P1 + s·Q1 + dom·Q2 + Σ mᵢ·H_{i+2}` and `A = (x+e)^{-1}·B` with `e, s`
the first two scalars drawn from the randomness stream.  The per-manager
domain cache (`getDomainCached`) is semantically transparent — it memoizes
`CalculateDomain` — and is modelled by calling `CalculateDomain` directly. -/
def SignWithPooling (Hs : List ℕ → ZMod q) (rnd : ℕ → ZMod q) (sk : PrivateKey q)
    (pk : PublicKey q) (messages : List (ZMod q)) (header : Option (List ℕ)) :
    Except Err (Signature q) :=
  if messages.length ≠ pk.MessageCount then .error .invalidMessageCount
  else
    let domain := CalculateDomain Hs pk header
    let e := rnd 0
    let s := rnd 1
    let B := messages.enum.foldl (fun acc im => acc + im.2 * pk.H.getD (im.1 + 2) 0)
      (pk.G1 + s * pk.H.getD 0 0 + domain * pk.H.getD 1 0)
    let inv := ConstantTimeModInverse (sk.X + e)
    .ok { A := inv * B, E := e, S := s }

/-- Embedding of `VerifyWithPooling` (`part_022`): recompute `B`, then check the product
pairing `e(A, W + e·P2) · e(B, -P2) = 1`. -/
def VerifyWithPooling (Hs : List ℕ → ZMod q) (pk : PublicKey q) (signature : Signature q)
    (messages : List (ZMod q)) (header : Option (List ℕ)) : Except Err Unit :=
  if messages.length ≠ pk.MessageCount then .error .invalidMessageCount
  else
    let domain := CalculateDomain Hs pk header
    let B := messages.enum.foldl (fun acc im => acc + im.2 * pk.H.getD (im.1 + 2) 0)
      (pk.G1 + signature.S * pk.H.getD 0 0 + domain * pk.H.getD 1 0)
    let wg2e := pk.W + signature.E * pk.G2
    let negG2 := -pk.G2
    match pairProduct [signature.A, B] [wg2e, negG2] with
    | .error _ => .error .pairingFailed
    | .ok gt => if gt = 0 then .ok () else .error .invalidSignature

/-! ## Proof creation (`CreateProof`, `proof.go`) -/

/-- Embedding of `CreateProof`: randomness draws, in source order, are
`r = rnd 0`, `eBlind = rnd 1`, `sBlind = rnd 2`, `domainBlind = rnd 3`, and
`mBlind[i] = rnd (4 + k)` for the `k`-th undisclosed index `i` in ascending
order.  The computed domain value is discarded by the source
(`_ = CalculateDomain(publicKey, header)`), so it does not appear here. -/
def CreateProof (Hs : List ℕ → ZMod q) (rnd : ℕ → ZMod q) (publicKey : PublicKey q)
    (signature : Signature q) (messages : List (ZMod q)) (disclosedIndices : List ℕ)
    (_header : Option (List ℕ)) :
    Except Err (ProofOfKnowledge q × List (ℕ × ZMod q)) :=
  if messages.length ≠ publicKey.MessageCount then .error .invalidMessageCount
  else if ¬ disclosedIndices.all (fun idx => idx < messages.length) then .error .invalidIndex
  else
    let disclosedMap : ℕ → Bool := fun i => disclosedIndices.contains i
    let disclosedMessages := disclosedIndices.foldl
      (fun m idx => mapInsert m idx (messages.getD idx 0)) []
    let r := rnd 0
    let APrime := signature.A + r * publicKey.G1
    let ABar := (List.range messages.length).foldl
      (fun acc i =>
        if disclosedMap i then acc
        else acc + messages.getD i 0 * r * publicKey.H.getD (i + 2) 0)
      APrime
    let eBlind := rnd 1
    let sBlind := rnd 2
    let domainBlind := rnd 3
    let undisclosed := (List.range messages.length).filter (fun i => ¬ disclosedMap i)
    let mBlind := undisclosed.enum.map (fun ki => (ki.2, rnd (4 + ki.1)))
    let D := mBlind.foldl (fun acc ib => acc + ib.2 * publicKey.H.getD (ib.1 + 2) 0)
      (sBlind * publicKey.H.getD 0 0 + domainBlind * publicKey.H.getD 1 0)
    let c := ComputeProofChallenge Hs APrime ABar D disclosedIndices disclosedMessages
    let eHat := signature.E * c + eBlind
    let sHat := signature.S * c + sBlind
    let mHat := undisclosed.map (fun i => (i, messages.getD i 0 * c + lookupD mBlind i 0))
    .ok ({ APrime := APrime, ABar := ABar, D := D, C := c, EHat := eHat, SHat := sHat,
           MHat := mHat }, disclosedMessages)

/-! ## Proof verification (`VerifyProof`, `proof.go`) -/

/-- Embedding of `VerifyProof`: validate the disclosed indices, recompute the challenge
from the proof commitments and the (sorted) disclosed data and compare it to
`proof.C` (returning `ErrInvalidSignature` on mismatch, as the source does),
then check the 3-term product pairing
`e(A', W) · e(g1b, -P2) · e(T, P2) = 1` with
`g1b = P1 + ŝ·Q1 + dom·Q2 + Σ_{i∈D} mᵢ·H_{i+2} + Σ_{i∈U} m̂ᵢ·H_{i+2} - c·D`
and `T = c·Ā + D`, both computed through `MultiScalarMulG1`. -/
def VerifyProof (Hs : List ℕ → ZMod q) (publicKey : PublicKey q)
    (proof : ProofOfKnowledge q) (disclosedMessages : List (ℕ × ZMod q))
    (header : Option (List ℕ)) : Except Err Unit :=
  if disclosedMessages.any (fun im => publicKey.MessageCount ≤ im.1) then .error .invalidIndex
  else
    let disclosedIndices := sortInts (disclosedMessages.map Prod.fst)
    let c := ComputeProofChallenge Hs proof.APrime proof.ABar proof.D
      disclosedIndices disclosedMessages
    if c ≠ proof.C then .error .invalidSignature
    else
      let domain := CalculateDomain Hs publicKey header
      let points := [publicKey.G1, publicKey.H.getD 0 0, publicKey.H.getD 1 0]
        ++ disclosedMessages.map (fun im => publicKey.H.getD (im.1 + 2) 0)
        ++ proof.MHat.map (fun im => publicKey.H.getD (im.1 + 2) 0)
        ++ [proof.D]
      let scalars := [1, proof.SHat, domain]
        ++ disclosedMessages.map (fun im => im.2)
        ++ proof.MHat.map (fun im => im.2)
        ++ [-proof.C]
      match MultiScalarMulG1 points scalars with
      | .error _ => .error .msmFailed
      | .ok g1bJac =>
        match MultiScalarMulG1 [proof.ABar, proof.D] [proof.C, 1] with
        | .error _ => .error .msmFailed
        | .ok TJac =>
          let g1b := g1JacToAffine g1bJac
          let T := g1JacToAffine TJac
          let negG2 := -publicKey.G2
          match pairProduct [proof.APrime, g1b, T] [publicKey.W, negG2, publicKey.G2] with
          | .error _ => .error .pairingFailed
          | .ok gt => if gt = 0 then .ok () else .error .invalidSignature

/-! ## Batch proof verification (`BatchVerifyProofs`, `proof.go`) -/

/-- Placeholder values for out-of-range list reads; every read through them
in the definitions below is guarded by the length checks the source makes. -/
def emptyPublicKey : PublicKey q := { W := 0, G2 := 0, G1 := 0, H := [], MessageCount := 0 }

/-- Placeholder proof value for out-of-range list reads. -/
def emptyProof : ProofOfKnowledge q :=
  { APrime := 0, ABar := 0, D := 0, C := 0, EHat := 0, SHat := 0, MHat := [] }

/-- The per-proof contribution of `BatchVerifyProofs` to the final product
pairing: the pairs `(g1b_k, -P2)` and `(T_k, P2)` with
`g1b_k = ρ_k·P1 + ρ_k·ŝ_k·Q1 + ρ_k·dom_k·Q2 + Σ_{i∈D_k} (-(mᵢ·c_k))·ρ_k·H_{i+2}`
and `T_k = ρ_k·(c_k·Ā_k + D_k)`.  (Unlike single verification, no `m̂` terms,
no `-c·D` term, and no `e(A'_k, W_k)` pair are added.) -/
def batchContribution (Hs : List ℕ → ZMod q) (rndB : ℕ → ZMod q)
    (publicKeys : List (PublicKey q)) (proofs : List (ProofOfKnowledge q))
    (disclosedMessagesList : List (List (ℕ × ZMod q))) (headers : List (Option (List ℕ)))
    (k : ℕ) : Except Err (List (ZMod q × ZMod q)) :=
  let publicKey := publicKeys.getD k emptyPublicKey
  let proof := proofs.getD k emptyProof
  let disclosedMessages := disclosedMessagesList.getD k []
  let domain := CalculateDomain Hs publicKey (headers.getD k none)
  let batchScalar := rndB k
  let points := [publicKey.G1, publicKey.H.getD 0 0, publicKey.H.getD 1 0]
    ++ disclosedMessages.map (fun im => publicKey.H.getD (im.1 + 2) 0)
  let scalars := [batchScalar, proof.SHat * batchScalar, domain * batchScalar]
    ++ disclosedMessages.map (fun im => -(im.2 * proof.C) * batchScalar)
  match MultiScalarMulG1 points scalars with
  | .error _ => .error .msmFailed
  | .ok g1bJac =>
    match MultiScalarMulG1 [proof.ABar, proof.D] [proof.C * batchScalar, batchScalar] with
    | .error _ => .error .msmFailed
    | .ok TJac =>
      .ok [(g1JacToAffine g1bJac, -publicKey.G2), (g1JacToAffine TJac, publicKey.G2)]

/-- Embedding of `BatchVerifyProofs`.  The result is `none` when the Go function would
panic: with exactly one proof it calls
`VerifyProof(publicKeys[0], proofs[0], disclosedMessagesList[0], headers[0])`,
and the read `headers[0]` is an index-out-of-range panic when the (otherwise
accepted) empty `headers` slice is passed.  With two or more proofs it first
recomputes every challenge (the bounded worker pool is modelled sequentially;
of several failures the one with the smallest index is reported), then draws
a random scalar `ρ_k` per proof from `rndB` and checks one accumulated
product pairing. -/
def BatchVerifyProofs (Hs : List ℕ → ZMod q) (rndB : ℕ → ZMod q)
    (publicKeys : List (PublicKey q)) (proofs : List (ProofOfKnowledge q))
    (disclosedMessagesList : List (List (ℕ × ZMod q)))
    (headers : List (Option (List ℕ))) : Option (Except Err Unit) :=
  if publicKeys.length ≠ proofs.length ∨ proofs.length ≠ disclosedMessagesList.length then
    some (.error .mismatchedArrayLengths)
  else if headers.length ≠ 0 ∧ headers.length ≠ proofs.length then
    some (.error .headersLengthMismatch)
  else if proofs.length = 0 then some (.ok ())
  else if proofs.length = 1 then
    match headers.get? 0 with
    | none => none
    | some h =>
      some (VerifyProof Hs (publicKeys.getD 0 emptyPublicKey) (proofs.getD 0 emptyProof)
        (disclosedMessagesList.getD 0 []) h)
  else
    let n := proofs.length
    let challengeOK : ℕ → Bool := fun k =>
      let p := proofs.getD k emptyProof
      let disclosed := disclosedMessagesList.getD k []
      let sortedIdx := sortInts (disclosed.map Prod.fst)
      ComputeProofChallenge Hs p.APrime p.ABar p.D sortedIdx disclosed = p.C
    match (List.range n).find? (fun k => ¬ challengeOK k) with
    | some k => some (.error (.challengeFailed k))
    | none =>
      let acc : Except Err (List (ZMod q × ZMod q)) := (List.range n).foldl
        (fun acc k => acc.bind (fun l =>
          (batchContribution Hs rndB publicKeys proofs disclosedMessagesList headers k).map
            (fun l2 => l ++ l2)))
        (.ok [])
      match acc with
      | .error e => some (.error e)
      | .ok prs =>
        match pairProduct (prs.map Prod.fst) (prs.map Prod.snd) with
        | .error _ => some (.error .pairingFailed)
        | .ok gt => some (if gt = 0 then .ok () else .error .invalidSignature)

/-! ## Serialization (`part_018`) -/

/-- Embedding of `SerializeSignature`: `A.Marshal() ‖ byte(len(E)) ‖ E.Bytes() ‖
byte(len(S)) ‖ S.Bytes()`.  `Marshal` is the 96-byte uncompressed encoding. -/
def SerializeSignature (sig : Signature q) : List ℕ :=
  g1Marshal sig.A
    ++ [goByte (minBytes sig.E.val).length] ++ minBytes sig.E.val
    ++ [goByte (minBytes sig.S.val).length] ++ minBytes sig.S.val

/-- Embedding of `DeserializeSignature`: after the 50-byte minimum-length check, parse `A`
by calling `Unmarshal` on `data[0:48]` — only 48 bytes, although `Marshal`
produced a 96-byte uncompressed encoding — then parse the length-prefixed
`E` and `S`.  Deserialized scalars are `SetBytes` results reduced into the
scalar model. -/
def DeserializeSignature (data : List ℕ) : Except Err (Signature q) :=
  if data.length < 50 then .error .invalidSignatureData
  else
    match g1Unmarshal (q := q) (data.take 48) with
    | .error _ => .error .invalidSignatureData
    | .ok a =>
      let eLength := data.getD 48 0
      if 49 + eLength > data.length then .error .invalidSignatureData
      else
        let e : ZMod q := (beVal ((data.drop 49).take eLength) : ℕ)
        let offset := 49 + eLength
        if data.length ≤ offset then .error .invalidSignatureData
        else
          let sLength := data.getD offset 0
          if offset + 1 + sLength > data.length then .error .invalidSignatureData
          else
            let s : ZMod q := (beVal ((data.drop (offset + 1)).take sLength) : ℕ)
            .ok { A := a, E := e, S := s }

/-- Embedding of `SerializeProof`: `A'.Marshal() ‖ Ā.Marshal() ‖ D.Marshal()` followed by
the length-prefixed `C`, `EHat`, `SHat`, then `byte(len(MHat))` and one
`u32_be(index) ‖ byte(len) ‖ bytes` entry per hidden message.  The source
collects the map keys into `indices` and — although its comments say
"We'll sort indices for deterministic serialization" — never sorts them, so
the entries are emitted in Go map iteration order, modelled by the
association-list order of `MHat`. -/
def SerializeProof (proof : ProofOfKnowledge q) : List ℕ :=
  g1Marshal proof.APrime ++ g1Marshal proof.ABar ++ g1Marshal proof.D
    ++ [goByte (minBytes proof.C.val).length] ++ minBytes proof.C.val
    ++ [goByte (minBytes proof.EHat.val).length] ++ minBytes proof.EHat.val
    ++ [goByte (minBytes proof.SHat.val).length] ++ minBytes proof.SHat.val
    ++ [goByte proof.MHat.length]
    ++ proof.MHat.flatMap (fun im =>
        u32beGo im.1 ++ [goByte (minBytes im.2.val).length] ++ minBytes im.2.val)

/-- Parse one length-prefixed scalar field of a serialized proof at `offset`;
returns the scalar and the next offset. -/
def parseScalarField (data : List ℕ) (offset : ℕ) : Except Err (ZMod q × ℕ) :=
  if data.length ≤ offset then .error .invalidProofData
  else
    let len := data.getD offset 0
    if offset + 1 + len > data.length then .error .invalidProofData
    else .ok ((beVal ((data.drop (offset + 1)).take len) : ℕ), offset + 1 + len)

/-- Read the 4-byte big-endian index field
`int(data[o])<<24 | int(data[o+1])<<16 | int(data[o+2])<<8 | int(data[o+3])`. -/
def readU32 (data : List ℕ) (offset : ℕ) : ℕ :=
  data.getD offset 0 * 16777216 + data.getD (offset + 1) 0 * 65536
    + data.getD (offset + 2) 0 * 256 + data.getD (offset + 3) 0

/-- The `MHat` parsing loop of `DeserializeProof`: `count` entries of
`u32_be(index) ‖ byte(len) ‖ bytes`, inserted into the map. -/
def parseMHat (data : List ℕ) : ℕ → ℕ → List (ℕ × ZMod q) →
    Except Err (List (ℕ × ZMod q))
  | 0, _, acc => .ok acc
  | count + 1, offset, acc =>
    if offset + 4 > data.length then .error .invalidProofData
    else
      let idx := readU32 data offset
      match parseScalarField (q := q) data (offset + 4) with
      | .error e => .error e
      | .ok (v, offset2) => parseMHat data count offset2 (mapInsert acc idx v)

/-- Embedding of `DeserializeProof`: after the 150-byte minimum-length check, parse
`APrime`, `ABar`, `D` by `Unmarshal` on three consecutive 48-byte slices
(again only 48 bytes each of the 96-byte `Marshal` encodings), then the
length-prefixed `C`, `EHat`, `SHat`, the hidden-message count byte, and the
`MHat` entries. -/
def DeserializeProof (data : List ℕ) : Except Err (ProofOfKnowledge q) :=
  if data.length < 150 then .error .invalidProofData
  else
    match g1Unmarshal (q := q) (data.take 48) with
    | .error _ => .error .invalidProofData
    | .ok aPrime =>
      match g1Unmarshal (q := q) ((data.drop 48).take 48) with
      | .error _ => .error .invalidProofData
      | .ok aBar =>
        match g1Unmarshal (q := q) ((data.drop 96).take 48) with
        | .error _ => .error .invalidProofData
        | .ok d =>
          match parseScalarField (q := q) data 144 with
          | .error _ => .error .invalidProofData
          | .ok (c, o1) =>
            match parseScalarField (q := q) data o1 with
            | .error _ => .error .invalidProofData
            | .ok (eHat, o2) =>
              match parseScalarField (q := q) data o2 with
              | .error _ => .error .invalidProofData
              | .ok (sHat, o3) =>
                if data.length ≤ o3 then .error .invalidProofData
                else
                  let mHatCount := data.getD o3 0
                  match parseMHat (q := q) data mHatCount (o3 + 1) [] with
                  | .error _ => .error .invalidProofData
                  | .ok mHat =>
                    .ok { APrime := aPrime, ABar := aBar, D := d, C := c,
                          EHat := eHat, SHat := sHat, MHat := mHat }

/-! ## Specification-side definitions

These follow the specification's words, for the refinement comparisons; they
are *not* translated from the source. -/

/-- The domain transcript as §4.3 of the specification words it:
`L ‖ Q1 ‖ Q2 ‖ H_1 ‖ … ‖ H_L ‖ W ‖ P1 ‖ P2 ‖ header` with `L` in standard
big-endian 32-bit form, points in the serialization `enc1`/`enc2` handed in,
and an absent header encoded as the empty string. -/
def specDomainBytes (enc1 : ZMod q → List ℕ) (enc2 : ZMod q → List ℕ)
    (publicKey : PublicKey q) (headerBytes : List ℕ) : List ℕ :=
  u32be publicKey.MessageCount
    ++ enc1 (publicKey.H.getD 0 0)
    ++ enc1 (publicKey.H.getD 1 0)
    ++ (publicKey.H.drop 2).flatMap enc1
    ++ enc2 publicKey.W
    ++ enc1 publicKey.G1
    ++ enc2 publicKey.G2
    ++ headerBytes

/-! ## Concrete instances

Shared concrete values for evaluating the embedded functions, over the
scalar field `ZMod 101` (101 playing the role of the prime `Order`), with the
constant-zero hash standing in for `Hs` and the constant-one stream for the
randomness source and generator derivation. -/

/-- Concrete stand-in for the SHA-256-based `Hs`. -/
def hashZero : List ℕ → ZMod 101 := fun _ => 0

/-- Concrete randomness stream / generator derivation: always 1. -/
def oneStream : ℕ → ZMod 101 := fun _ => 1

/-- Key pair for `L = 1` generated from the system randomness stream, so the
private key is `x = 1` and `H = [Q1, Q2, H_1] = [1, 1, 1]`. -/
def kp101 : KeyPair 101 := GenerateKeyPair oneStream 1 (Rng.system oneStream)

/-- The signature `SignWithPooling hashZero oneStream` produces under
`kp101` on the message list `[1]` with no header: `e = s = 1`, domain `0`,
`B = 1 + 1 + 0 + 1 = 3`, `A = (1+1)^{-1}·3 = 51·3 = 52`. -/
def sig101 : Signature 101 := { A := 52, E := 1, S := 1 }

/-- The proof `CreateProof hashZero oneStream` produces under `kp101` from
`sig101`, messages `[1]`, empty disclosure, no header: `r = 1`,
`A' = 52 + 1 = 53`, `Ā = 53 + 1·1·1 = 54`, `D = 1 + 1 + 1 = 3`, `c = 0`,
`ê = ŝ = 1`, `m̂₀ = 1`. -/
def proof101 : ProofOfKnowledge 101 :=
  { APrime := 53, ABar := 54, D := 3, C := 0, EHat := 1, SHat := 1, MHat := [(0, 1)] }

/-- A public key with `L = 0`, `P1 = W = P2 = 1` (the standard generators
under a secret key `x = 1`) and `Q1 = Q2 = 0`. -/
def pkSmall : PublicKey 101 := { W := 1, G2 := 1, G1 := 1, H := [0, 0], MessageCount := 0 }

/-- A proof for `pkSmall` with `A' = 1` and all other components zero; its
challenge `0` matches `hashZero`, and the single-verification pairing value
is `1·1 + 1·(-1) + 0·1 = 0`, so `VerifyProof` accepts it. -/
def proofSmall : ProofOfKnowledge 101 :=
  { APrime := 1, ABar := 0, D := 0, C := 0, EHat := 0, SHat := 0, MHat := [] }

/-- A proof whose `MHat` map is iterated in ascending index order. -/
def proofAsc : ProofOfKnowledge 101 :=
  { APrime := 1, ABar := 2, D := 3, C := 4, EHat := 5, SHat := 6, MHat := [(1, 5), (2, 7)] }

/-- The same `MHat` map as `proofAsc` observed under the opposite Go map
iteration order. -/
def proofDesc : ProofOfKnowledge 101 :=
  { APrime := 1, ABar := 2, D := 3, C := 4, EHat := 5, SHat := 6, MHat := [(2, 7), (1, 5)] }

/-- A public key with `L = 1` and all generators equal to the standard one,
used to evaluate the domain transcript. -/
def pkDom : PublicKey 101 := { W := 1, G2 := 1, G1 := 1, H := [1, 1, 1], MessageCount := 1 }

/-! ## Fold machinery for the MSM correctness proof -/

/-- The accumulation step of `MultiScalarMulG1` expressed on a zipped
(point, scalar) pair instead of an index. -/
def zstep (acc : G1Jac q) (ps : ZMod q × ZMod q) : G1Jac q :=
  if ps.2 = 0 ∨ ps.1 = 0 then acc
  else g1JacAdd acc (g1JacScalarMul ps.2 (g1JacOfAffine ps.1))

theorem foldl_range_length_getD {α β : Type} (f : β → α → β) (d : α) :
    ∀ (l : List α) (init : β),
      (List.range l.length).foldl (fun acc j => f acc (l.getD j d)) init = l.foldl f init := by
  intro l
  induction l with
  | nil => intro init; rfl
  | cons x xs ih =>
    intro init
    rw [List.length_cons, List.range_succ_eq_map, List.foldl_cons, List.foldl_map]
    simpa using ih (f init x)

theorem zip_getD {α β : Type} (d1 : α) (d2 : β) :
    ∀ (l1 : List α) (l2 : List β) (j : ℕ), j < l1.length → j < l2.length →
      (l1.zip l2).getD j (d1, d2) = (l1.getD j d1, l2.getD j d2) := by
  intro l1
  induction l1 with
  | nil => intro l2 j h1 _; exact absurd h1 (by simp)
  | cons x xs ih =>
    intro l2 j h1 h2
    match l2, j with
    | [], _ => exact absurd h2 (by simp)
    | y :: ys, 0 => rfl
    | y :: ys, j + 1 =>
      simpa using ih ys j (by simpa using h1) (by simpa using h2)

theorem zfold_pt (l : List (ZMod q × ZMod q)) :
    ∀ acc : G1Jac q,
      (l.foldl zstep acc).pt = acc.pt + (l.map (fun ps => ps.2 * ps.1)).sum := by
  induction l with
  | nil => intro acc; simp
  | cons ps t ih =>
    intro acc
    rw [List.foldl_cons, ih, List.map_cons, List.sum_cons]
    by_cases h : ps.2 = 0 ∨ ps.1 = 0
    · have hz : ps.2 * ps.1 = 0 := by
        rcases h with h | h <;> simp [h]
      rw [zstep, if_pos h, hz]
      ring
    · rw [zstep, if_neg h]
      show acc.pt + ps.2 * ps.1 + _ = _
      ring

theorem zfold_Z (l : List (ZMod q × ZMod q)) :
    ∀ acc : G1Jac q, acc.Z = (if acc.pt = 0 then 0 else 1) →
      (l.foldl zstep acc).Z = if (l.foldl zstep acc).pt = 0 then 0 else 1 := by
  induction l with
  | nil => intro acc h; simpa using h
  | cons ps t ih =>
    intro acc h
    rw [List.foldl_cons]
    apply ih
    by_cases hc : ps.2 = 0 ∨ ps.1 = 0
    · rw [zstep, if_pos hc]; exact h
    · rw [zstep, if_neg hc]; rfl

theorem range_filter_mul8 (n : ℕ) :
    (List.range n).filter (fun i => i % 8 = 0 && i + 8 ≤ n)
      = (List.range (n / 8)).map (fun t => 8 * t) := by
  have hpred : ∀ i ∈ List.range n,
      (decide (i % 8 = 0) && decide (i + 8 ≤ n))
        = (decide (i % 8 = 0) && decide (i < 8 * (n / 8))) := by
    intro i _
    by_cases h8 : i % 8 = 0
    · have ⟨t, ht⟩ : ∃ t, i = 8 * t := ⟨i / 8, by omega⟩
      subst ht
      have : (8 * t + 8 ≤ n) ↔ (8 * t < 8 * (n / 8)) := by
        constructor
        · intro h; have : t + 1 ≤ n / 8 := Nat.le_div_iff_mul_le (by norm_num) |>.2 (by omega)
          omega
        · intro h
          have ht8 : t + 1 ≤ n / 8 := by omega
          have := Nat.le_div_iff_mul_le (k := 8) (by norm_num) |>.1 ht8
          omega
      simp [h8, this]
    · simp [h8]
  rw [List.filter_congr hpred]
  -- restrict the range to the first `8 * (n / 8)` indices
  have hsplit : List.range n
      = List.range (8 * (n / 8)) ++ (List.range (n - 8 * (n / 8))).map (8 * (n / 8) + ·) := by
    rw [← List.range_add]
    congr 1
    omega
  rw [hsplit, List.filter_append]
  have htail : ((List.range (n - 8 * (n / 8))).map (8 * (n / 8) + ·)).filter
      (fun i => decide (i % 8 = 0) && decide (i < 8 * (n / 8))) = [] := by
    rw [List.filter_eq_nil_iff]
    intro a ha
    rcases List.mem_map.1 ha with ⟨j, _, rfl⟩
    simp
  rw [htail, List.append_nil]
  have hhead : ∀ i ∈ List.range (8 * (n / 8)),
      (decide (i % 8 = 0) && decide (i < 8 * (n / 8))) = decide (i % 8 = 0) := by
    intro i hi
    rw [List.mem_range] at hi
    simp [hi]
  rw [List.filter_congr hhead]
  -- now a clean induction on `n / 8`
  generalize n / 8 = k
  induction k with
  | zero => rfl
  | succ k ih =>
    have hsplit : List.range (8 * (k + 1))
        = List.range (8 * k) ++ (List.range 8).map (fun x => 8 * k + x) := by
      rw [show 8 * (k + 1) = 8 * k + 8 by ring, List.range_add]
    rw [hsplit, List.filter_append, ih]
    have hfil : ((List.range 8).map (fun x => 8 * k + x)).filter
        (fun x => decide (x % 8 = 0)) = [8 * k] := by
      rw [show List.range 8 = [0, 1, 2, 3, 4, 5, 6, 7] from rfl]
      simp [List.filter, Nat.mul_add_mod]
    rw [hfil, List.range_succ, List.map_append]
    simp

theorem foldl_batches {β : Type} (f : β → ℕ → β) (n : ℕ) (init : β) :
    ((List.range n).filter (fun i => i % 8 = 0 && i + 8 ≤ n)).foldl
        (fun acc i => (List.range 8).foldl (fun a j => f a (i + j)) acc) init
      = (List.range (8 * (n / 8))).foldl f init := by
  rw [range_filter_mul8, List.foldl_map]
  rw [show List.range 8 = [0, 1, 2, 3, 4, 5, 6, 7] from rfl]
  generalize n / 8 = k
  induction k generalizing init with
  | zero => rfl
  | succ k ih =>
    rw [List.range_succ, List.foldl_append, ih init]
    rw [show 8 * (k + 1) = 8 * k + 8 by ring, List.range_add, List.foldl_append,
      List.foldl_map]
    rfl

theorem foldl_range_split {β : Type} (f : β → ℕ → β) (n : ℕ) (init : β) :
    (List.range' ((n / 8) * 8) (n - (n / 8) * 8)).foldl f
        ((List.range (8 * (n / 8))).foldl f init)
      = (List.range n).foldl f init := by
  rw [← List.foldl_append]
  congr 1
  rw [List.range_eq_range', List.range_eq_range']
  have h1 : 8 * (n / 8) = (n / 8) * 8 := by ring
  rw [h1]
  have h2 := List.range'_append 0 ((n / 8) * 8) (n - (n / 8) * 8) 1
  simp only [Nat.one_mul, Nat.zero_add] at h2
  rw [h2]
  congr 1
  omega

theorem msm_fold_eq (points scalars : List (ZMod q)) (hlen : points.length = scalars.length) :
    (List.range' ((points.length / 8) * 8) (points.length - (points.length / 8) * 8)).foldl
        (msmStep points scalars)
        (((List.range points.length).filter
            (fun i => i % 8 = 0 && i + 8 ≤ points.length)).foldl
          (fun acc i => (List.range 8).foldl (fun a j => msmStep points scalars a (i + j)) acc)
          msmInit)
      = (points.zip scalars).foldl zstep msmInit := by
  rw [foldl_batches (msmStep points scalars) points.length msmInit,
    foldl_range_split (msmStep points scalars) points.length msmInit]
  have hzl : (points.zip scalars).length = points.length := by
    rw [List.length_zip]; omega
  conv_rhs => rw [← foldl_range_length_getD zstep (0, 0) (points.zip scalars) msmInit]
  rw [hzl]
  apply List.foldl_ext
  intro acc j hj
  rw [List.mem_range] at hj
  rw [zip_getD 0 0 points scalars j hj (by omega)]
  rfl

theorem zfold_result (points scalars : List (ZMod q)) :
    (points.zip scalars).foldl zstep msmInit
      = { pt := msmSpecSum points scalars,
          Z := if msmSpecSum points scalars = 0 then 0 else 1 } := by
  have hpt := zfold_pt (points.zip scalars) msmInit
  have hZ := zfold_Z (points.zip scalars) msmInit (by simp [msmInit])
  rcases hres : (points.zip scalars).foldl zstep msmInit with ⟨pt, Z⟩
  rw [hres] at hpt hZ
  simp only [msmInit] at hpt
  rw [zero_add] at hpt
  simp only at hpt hZ
  rw [msmSpecSum, ← hpt, hZ]

/-- Claim C5: `MultiScalarMulG1` returns `Σ scalars[i]·points[i]` for
equal-length inputs (hence correctly handles identity points, zero scalars
and a single nonzero term), the identity for empty input; it fails exactly
when the lengths disagree; and the identity it produces has Jacobian
coordinate `Z = 0`. -/
theorem c5_msm_contract (q : ℕ) (points scalars : List (ZMod q)) :
    (points.length = scalars.length →
      MultiScalarMulG1 points scalars =
        .ok { pt := msmSpecSum points scalars,
              Z := if msmSpecSum points scalars = 0 then 0 else 1 }) ∧
    (points.length ≠ scalars.length →
      MultiScalarMulG1 points scalars = .error .mismatchedLengths) ∧
    MultiScalarMulG1 (q := q) [] [] = .ok { pt := 0, Z := 0 } := by
  refine ⟨?_, ?_, ?_⟩
  · intro hlen
    unfold MultiScalarMulG1
    rw [if_neg (by simp [hlen])]
    show Except.ok
        ((List.range' ((points.length / 8) * 8) (points.length - (points.length / 8) * 8)).foldl
          (msmStep points scalars)
          (((List.range points.length).filter
              (fun i => i % 8 = 0 && i + 8 ≤ points.length)).foldl
            (fun acc i => (List.range 8).foldl (fun a j => msmStep points scalars a (i + j)) acc)
            msmInit)) = _
    rw [msm_fold_eq points scalars hlen, zfold_result points scalars]
  · intro hlen
    unfold MultiScalarMulG1
    rw [if_pos hlen]
  · unfold MultiScalarMulG1
    norm_num [msmInit]

/-- Witness for C5 at concrete inputs: a zero scalar and an identity point
inside the sum, and a length mismatch. -/
theorem c5_msm_contract_witness :
    MultiScalarMulG1 (q := 101) [2, 0, 5] [3, 7, 0] = .ok { pt := 6, Z := 1 } ∧
    MultiScalarMulG1 (q := 101) [2] [3, 4] = .error .mismatchedLengths := by
  constructor
  · have h := (c5_msm_contract 101 [2, 0, 5] [3, 7, 0]).1 (by decide)
    rw [h]
    decide
  · exact (c5_msm_contract 101 [2] [3, 4]).2.1 (by decide)

/-- Evaluating the two-element product pairing. -/
theorem pairProduct_pair (a b c d : ZMod q) :
    pairProduct [a, b] [c, d] = .ok (a * c + (b * d + 0)) := rfl

/-- Completeness of sign/verify **in the idealized subgroup model only**:
if the derived generators were genuine r-order subgroup elements (any
`genHash`), then for every key pair, message list of length `L` and header,
the pairing check `e(A, W + e·P2) · e(B, -P2) = 1` would close for the
produced `(A, e, s)` (given `x + e ≠ 0`).  The program does **not** satisfy
this: its generators are scalar multiples of the off-curve point `(1, 1)`
(see `c2_generators_off_curve`), so this lemma serves to locate the
program's sign-then-verify failure precisely in the generator derivation —
the remaining algebra is consistent. -/
theorem sign_verify_accepts_with_subgroup_generators (q : ℕ) [Fact q.Prime]
    (Hs : List ℕ → ZMod q)
    (genHash : ℕ → ZMod q) (rngK : Rng q) (rnd : ℕ → ZMod q) (L : ℕ) (_hL : 1 ≤ L)
    (messages : List (ZMod q)) (hlen : messages.length = L) (header : Option (List ℕ))
    (hx : (GenerateKeyPair genHash L rngK).PrivateKey.X + rnd 0 ≠ 0)
    (sig : Signature q)
    (hsig : SignWithPooling Hs rnd (GenerateKeyPair genHash L rngK).PrivateKey
        (GenerateKeyPair genHash L rngK).PublicKey messages header = .ok sig) :
    VerifyWithPooling Hs (GenerateKeyPair genHash L rngK).PublicKey sig messages header
      = .ok () := by
  set kp := GenerateKeyPair genHash L rngK with hkp
  have hcount : kp.PublicKey.MessageCount = L := rfl
  have hlen2 : ¬ messages.length ≠ kp.PublicKey.MessageCount := by
    rw [hcount]; omega
  rw [SignWithPooling, if_neg hlen2] at hsig
  rw [Except.ok.injEq] at hsig
  subst hsig
  rw [VerifyWithPooling, if_neg hlen2]
  set x := kp.PrivateKey.X with hxdef
  set e := rnd 0 with he
  set B := messages.enum.foldl
    (fun acc im => acc + im.2 * kp.PublicKey.H.getD (im.1 + 2) 0)
    (kp.PublicKey.G1 + rnd 1 * kp.PublicKey.H.getD 0 0
      + CalculateDomain Hs kp.PublicKey header * kp.PublicKey.H.getD 1 0) with hB
  have hW : kp.PublicKey.W = x * 1 := rfl
  have hG2 : kp.PublicKey.G2 = 1 := rfl
  have hone : ConstantTimeModInverse (x + e) * (x + e) = 1 := by
    have h2 : 2 ≤ q := (Fact.out : q.Prime).two_le
    rw [ConstantTimeModInverse, ← pow_succ]
    rw [show q - 2 + 1 = q - 1 by omega]
    exact ZMod.pow_card_sub_one_eq_one hx
  have hgt : ConstantTimeModInverse (x + e) * B * (kp.PublicKey.W + e * kp.PublicKey.G2)
      + (B * -kp.PublicKey.G2 + 0) = 0 := by
    rw [hW, hG2]
    have : ConstantTimeModInverse (x + e) * B * (x * 1 + e * 1) + (B * -1 + 0)
        = B * (ConstantTimeModInverse (x + e) * (x + e)) - B := by ring
    rw [this, hone]
    ring
  simp only [pairProduct_pair]
  split
  · rfl
  · next hne => exact absurd hgt hne

/-- Claim C2 (code bug): the generators the program derives are scalar
multiples of the base point `(1, 1)`, which lies on the singular cubic
`y² = x³` but not on BLS12-381 (`1² ≠ 1³ + 4` over the real base field),
and no point of that cubic is ever on the curve; so `Q1, Q2, H_i` are
outside the r-order pairing subgroup, gnark's unchecked `Pair` computes over
invalid points, and honest `SignWithPooling` → `VerifyWithPooling` fails the
pairing check instead of accepting.  Together with
`sign_verify_accepts_with_subgroup_generators` (with genuine subgroup
generators the equation would close), this locates the failure exactly in
the generator derivation. -/
theorem c2_generators_off_curve :
    onCuspCurve generatorBase ∧ ¬ onCurveG1 generatorBase ∧
    ∀ P : ZMod pBLS × ZMod pBLS, onCuspCurve P → ¬ onCurveG1 P := by
  refine ⟨by unfold onCuspCurve; decide, by unfold onCurveG1; decide, ?_⟩
  intro P h hc
  rw [onCuspCurve] at h
  rw [onCurveG1, h, self_eq_add_right] at hc
  exact absurd hc (by decide)

/-- Witness for C2's theorem at the concrete base point `(1, 1)`: it lies on
the singular cubic, and the theorem's implication puts it off the curve. -/
theorem c2_generators_off_curve_witness :
    onCuspCurve generatorBase ∧ ¬ onCurveG1 generatorBase :=
  ⟨by unfold onCuspCurve; decide,
    c2_generators_off_curve.2.2 generatorBase (by unfold onCuspCurve; decide)⟩

set_option maxRecDepth 40000 in
/-- Claim C1 (code bug): an honestly generated key pair, an honestly signed and
verifying signature, and an honestly created proof with empty disclosure —
yet `VerifyProof` rejects the proof with `ErrInvalidSignature`: the 3-term
pairing equation does not equal the identity of G_T (the prover's
commitments `Ā, D` and responses do not cancel in the verifier's equation;
for instance the `domainBlind·Q2` term survives with coefficient `1 + c`). -/
theorem c1_honest_proof_rejected :
    SignWithPooling hashZero oneStream kp101.PrivateKey kp101.PublicKey
      [(1 : ZMod 101)] none = .ok sig101 ∧
    VerifyWithPooling hashZero kp101.PublicKey sig101 [(1 : ZMod 101)] none = .ok () ∧
    CreateProof hashZero oneStream kp101.PublicKey sig101 [(1 : ZMod 101)] [] none
      = .ok (proof101, []) ∧
    VerifyProof hashZero kp101.PublicKey proof101 [] none = .error .invalidSignature := by
  refine ⟨by decide, by decide, by decide, by decide⟩

/-- The challenge transcript never contains the disclosed indices or
messages: the `copy` into the zero-length `sortedIndices` slice leaves it
empty, so for every input the hashed bytes are just `A' ‖ Ā ‖ D`. -/
theorem challengeBytes_ignores_disclosed (q : ℕ) (APrime ABar D : ZMod q)
    (disclosedIndices : List ℕ) (disclosedMessages : List (ℕ × ZMod q)) :
    challengeBytes APrime ABar D disclosedIndices disclosedMessages
      = g1Marshal APrime ++ g1Marshal ABar ++ g1Marshal D := by
  simp [challengeBytes, goCopy, sortInts]

set_option maxRecDepth 40000 in
/-- Claim C3 (code bug): two challenge computations that differ only in the
disclosed message value (or only in the disclosed index set) produce exactly
the same transcript bytes — the disclosed data is dropped from the
transcript by the `copy` into a zero-length slice — although the claim says
the sorted encodings are appended and make such transcripts differ. -/
theorem c3_challenge_transcript_drops_disclosed :
    challengeBytes (q := 101) 1 2 3 [0] [(0, 1)]
        = challengeBytes (q := 101) 1 2 3 [0] [(0, 2)] ∧
    challengeBytes (q := 101) 1 2 3 [0] [(0, 1)]
        = challengeBytes (q := 101) 1 2 3 [1] [(1, 5)] ∧
    ((1 : ZMod 101) ≠ 2 ∧ [(0 : ℕ)] ≠ [1]) := by
  refine ⟨by decide, by decide, by decide, by decide⟩

set_option maxRecDepth 40000 in
/-- Claim C4 (code bug): a batch of two triples, each of which `VerifyProof`
accepts individually, that `BatchVerifyProofs` rejects: the batch pairing
accumulation omits the `e(A'_k, W_k)` factors (as well as the `m̂` terms and
the `-c·D` term of the single verifier), so its value is `-ρ₁ - ρ₂ ≠ 0`
while each individual pairing value is `0`. -/
theorem c4_batch_disagrees_with_individual :
    VerifyProof hashZero pkSmall proofSmall [] none = .ok () ∧
    BatchVerifyProofs hashZero oneStream [pkSmall, pkSmall] [proofSmall, proofSmall]
      [[], []] [none, none] = some (.error .invalidSignature) := by
  refine ⟨by decide, by decide⟩

/-- Model of the Go `byte(v >> k)` chain being standard big-endian: the four
bytes the library writes for a 32-bit value agree with `u32_be`. -/
theorem u32beGo_eq_u32be (v : ℕ) : u32beGo v = u32be v := by
  simp only [u32beGo, u32be, goByte, beBytes, Nat.shiftRight_eq_div_pow]
  norm_num [Nat.div_div_eq_div_mul]

/-- Claim C6 (amended): `CalculateDomain` hashes exactly
`L ‖ Q1 ‖ Q2 ‖ H_1 ‖ … ‖ H_L ‖ W ‖ P1 ‖ P2 ‖ header` with `L` big-endian
32-bit and every point in gnark's `Marshal` encoding — the canonical
**uncompressed** form (96-byte G1, 192-byte G2), not the compressed form the
claim states — and a nil header enters the transcript as the empty string. -/
theorem c6_domain_transcript (q : ℕ) (Hs : List ℕ → ZMod q) (publicKey : PublicKey q)
    (header : Option (List ℕ)) :
    domainBytes publicKey header
        = specDomainBytes g1Marshal g2Marshal publicKey (header.getD []) ∧
    CalculateDomain Hs publicKey none = CalculateDomain Hs publicKey (some []) := by
  constructor
  · rw [domainBytes, specDomainBytes, u32beGo_eq_u32be]
  · rfl

set_option maxRecDepth 40000 in
/-- Counterexample for C6 as stated: the bytes `CalculateDomain` hashes are
not the specification concatenation with points in canonical *compressed*
form (they are twice as long, in the uncompressed `Marshal` form). -/
theorem c6_compressed_form_counterexample :
    domainBytes pkDom none ≠ specDomainBytes g1Compressed g2Compressed pkDom [] := by
  decide

set_option maxRecDepth 40000 in
/-- Claim C7 (code bug): deserialization of a serialized signature (and of a
serialized proof) always fails with a decoding error instead of returning
the original value: the serializers emit 96-byte uncompressed `Marshal`
point encodings while the deserializers hand `Unmarshal` 48-byte slices,
which `SetBytes` rejects as a short buffer for the uncompressed mask. -/
theorem c7_serialize_roundtrip_fails :
    DeserializeSignature (q := 101) (SerializeSignature sig101)
        = .error .invalidSignatureData ∧
    DeserializeProof (q := 101) (SerializeProof proof101) = .error .invalidProofData := by
  refine ⟨by decide, by decide⟩

set_option maxRecDepth 40000 in
/-- Claim C8 (code bug): `SerializeProof` emits the hidden-message entries in
Go map iteration order — the sort its comments promise is missing — so two
proofs carrying the same `MHat` map observed under different iteration
orders serialize to different byte strings, and the entry order follows the
iteration order (here the first emitted index is 2, not the ascending 1). -/
theorem c8_proof_serialization_order :
    proofAsc.MHat.Perm proofDesc.MHat ∧
    (SerializeProof proofDesc).getD 298 0 = 2 ∧
    (SerializeProof proofAsc).getD 298 0 = 1 ∧
    SerializeProof proofAsc ≠ SerializeProof proofDesc := by
  refine ⟨by decide, by decide, by decide, by decide⟩

set_option maxRecDepth 40000 in
/-- Claim C9 (code bug): with exactly one proof, `BatchVerifyProofs` passes
its own input validation for an empty `headers` slice but then reads
`headers[0]`, an index-out-of-range panic (modelled as `none`); with a
one-element `headers` slice it returns the single-verification result. -/
theorem c9_batch_single_empty_headers_aborts :
    BatchVerifyProofs hashZero oneStream [pkSmall] [proofSmall] [[]] [] = none ∧
    BatchVerifyProofs hashZero oneStream [pkSmall] [proofSmall] [[]] [none]
      = some (.ok ()) := by
  refine ⟨by decide, by decide⟩

/-- Claim C10: when the randomness source is a `bytes.Reader`, the generated
private key is the fixed constant 12345 regardless of the reader's contents. -/
theorem c10_bytes_reader_fixed_key (q : ℕ) (genHash : ℕ → ZMod q) (L : ℕ)
    (c1 c2 : List ℕ) :
    (GenerateKeyPair genHash L (Rng.bytesReader c1)).PrivateKey.X
        = (GenerateKeyPair genHash L (Rng.bytesReader c2)).PrivateKey.X ∧
    (GenerateKeyPair genHash L (Rng.bytesReader c1)).PrivateKey.X = (12345 : ZMod q) :=
  ⟨rfl, rfl⟩

end BBS
